import Mathlib

set_option maxRecDepth 8000

/- Verification development for the linkmind repository.
   The definitions below are shallow embeddings of the link-relations
   subsystem (db.ts saveRelatedLinks / getRelatedLinks, search.ts
   searchRelatedLinks, pipeline.ts relatedStep), of the process-link
   handler, of the probe result callback and of the device-token
   endpoint (web.ts). Scores and distances are modelled as exact
   rationals; the DB REAL column is a real number in the source. -/

/- ── Link relations: data model ── -/

structure RelRow where
  link_id : Nat
  related_link_id : Nat
  score : ℚ
deriving DecidableEq, Repr

abbrev RelTable := List RelRow

/-- Embedding of db.ts saveRelatedLinks: delete the rows whose link_id is
the given link, then insert one row per (relatedLinkId, score) pair. -/
def saveRelatedLinks (linkId : Nat) (relations : List (Nat × ℚ)) (t : RelTable) : RelTable :=
  t.filter (fun r => !(r.link_id == linkId)) ++ relations.map (fun p => ⟨linkId, p.1, p.2⟩)

/- ── Vector search（search.ts） ── -/

structure SearchRow where
  id : Nat
  distance : ℚ
deriving DecidableEq, Repr

/-- Rounding to the nearest integer, halves toward positive infinity, the
behaviour of JS Math.round. Stated executably via Rat.floor; the lemma
jsRound_eq_round below identifies it with the Mathlib round. -/
def jsRound (x : ℚ) : ℤ := (x + 1/2).floor

theorem intFloor_eq_ratFloor (q : ℚ) : ⌊q⌋ = q.floor := by
  rw [Rat.floor_def, Rat.floor_def']

theorem jsRound_eq_round (x : ℚ) : jsRound x = round x := by
  rw [round_eq, jsRound, intFloor_eq_ratFloor]

theorem jsRound_mono {x y : ℚ} (h : x ≤ y) : jsRound x ≤ jsRound y := by
  rw [jsRound, jsRound, ← intFloor_eq_ratFloor, ← intFloor_eq_ratFloor]
  exact Int.floor_mono (by linarith)

/-- Embedding of the score conversion in search.ts searchRelatedLinks:
Math.round((1 / (1 + distance)) * 100) / 100. -/
def toScore (d : ℚ) : ℚ := (jsRound ((1 / (1 + d)) * 100) : ℤ) / 100

structure RelatedLinkResult where
  id : Nat
  score : ℚ
deriving DecidableEq, Repr

/-- Embedding of search.ts searchRelatedLinks: on a successful DB query the
ordered rows are mapped to scores; on any store or search error the catch
returns the empty list. -/
def searchRelatedLinks (dbResult : Except String (List SearchRow)) : List RelatedLinkResult :=
  match dbResult with
  | .ok rows => rows.map (fun r => ⟨r.id, toScore r.distance⟩)
  | .error _ => []

def RELATED_SCORE_THRESHOLD : ℚ := 65 / 100

def RELATED_MAX_COUNT : Nat := 5

/-- Embedding of pipeline.ts relatedStep: search, filter by the score
threshold, truncate to RELATED_MAX_COUNT, replace the outgoing relations of
the link, and return the retained list. -/
def relatedStep (linkId : Nat) (dbResult : Except String (List SearchRow)) (t : RelTable) :
    RelTable × List RelatedLinkResult :=
  let searchResults := searchRelatedLinks dbResult
  let relatedLinks :=
    (searchResults.filter (fun r => decide (RELATED_SCORE_THRESHOLD ≤ r.score))).take
      RELATED_MAX_COUNT
  let t2 := saveRelatedLinks linkId (relatedLinks.map (fun r => (r.id, r.score))) t
  (t2, relatedLinks)

/- ── getRelatedLinks（db.ts） ── -/

def lookupScore (k : Nat) : List (Nat × ℚ) → Option ℚ
  | [] => none
  | p :: ps => if p.1 == k then some p.2 else lookupScore k ps

/-- One iteration of the merge loop in db.ts getRelatedLinks over a JS Map in
insertion order. The JS guard is `!existing || row.score > existing`, and
`!existing` is also true when the stored score is 0. -/
def insEntry (acc : List (Nat × ℚ)) (e : Nat × ℚ) : List (Nat × ℚ) :=
  match lookupScore e.1 acc with
  | none => acc ++ [e]
  | some s =>
    if s = 0 ∨ s < e.2 then
      acc.map (fun p => if p.1 == e.1 then (p.1, e.2) else p)
    else acc

/-- Stable insertion into a list sorted by descending score, matching the
stable JS Array.sort with the comparator b.score - a.score. -/
def insDesc (x : Nat × ℚ) : List (Nat × ℚ) → List (Nat × ℚ)
  | [] => [x]
  | y :: ys => if y.2 ≤ x.2 then x :: y :: ys else y :: insDesc x ys

def sortByScoreDesc : List (Nat × ℚ) → List (Nat × ℚ)
  | [] => []
  | x :: xs => insDesc x (sortByScoreDesc xs)

/-- Embedding of db.ts getRelatedLinks up to the final sort and cap: outgoing
rows union incoming rows, deduplicated in first-insertion order keeping the
larger score. -/
def mergedNeighbors (linkId : Nat) (t : RelTable) : List (Nat × ℚ) :=
  let outgoing := (t.filter (fun r => r.link_id == linkId)).map fun r =>
    (r.related_link_id, r.score)
  let incoming := (t.filter (fun r => r.related_link_id == linkId)).map fun r =>
    (r.link_id, r.score)
  (outgoing ++ incoming).foldl insEntry []

/-- Embedding of db.ts getRelatedLinks: merge both directions, deduplicate
keeping the maximum score, sort by score descending, take 5. -/
def getRelatedLinks (linkId : Nat) (t : RelTable) : List (Nat × ℚ) :=
  (sortByScoreDesc (mergedNeighbors linkId t)).take 5

/- ── Reachability by related-step executions ── -/

/-- One related-step execution together with the vector-search rows the DB
returned for it. -/
def runRelated (t : RelTable) (call : Nat × List SearchRow) : RelTable :=
  (relatedStep call.1 (.ok call.2) t).1

/-- Wellformedness of a vector-search result as the links-table query produces
it: distinct primary-key ids, none equal to the excluded link, nonnegative
cosine distances, ordered by ascending distance. -/
def wfSearchRows (linkId : Nat) (rows : List SearchRow) : Prop :=
  (rows.map SearchRow.id).Nodup ∧ (∀ r ∈ rows, r.id ≠ linkId) ∧
    (∀ r ∈ rows, 0 ≤ r.distance) ∧ rows.Pairwise (fun a b => a.distance ≤ b.distance)

instance (linkId : Nat) (rows : List SearchRow) : Decidable (wfSearchRows linkId rows) := by
  unfold wfSearchRows; infer_instance

example : toScore (1/4) = 4/5 := by with_unfolding_all decide

example : toScore (33/67) = 67/100 := by with_unfolding_all decide

example : toScore (1/2) = 67/100 := by with_unfolding_all decide

example : toScore (1/9) = 9/10 := by with_unfolding_all decide

example : toScore (7/13) = 13/20 := by with_unfolding_all decide

/- ── Pair keys of the relation table ── -/

def pairKeys (t : RelTable) : List (Nat × Nat) :=
  t.map fun r => (r.link_id, r.related_link_id)

def c1Calls : List (Nat × List SearchRow) := [(1, [⟨2, 1/4⟩]), (2, [⟨1, 1/4⟩])]

def c1Table : RelTable := c1Calls.foldl runRelated []

/-- C1 counterexample: starting from an empty link_relations table, running the
related step on link 1 (the search sees link 2 at distance 1/4, score 0.80)
and then on link 2 (the search sees link 1 at the same distance) stores BOTH
rows (1,2) and (2,1): saveRelatedLinks only deletes the outgoing rows of the
link being processed, so the unordered pair is stored twice, contradicting the
claim that at most one of (a,b) and (b,a) exists. -/
theorem c1_counterexample :
    (∀ c ∈ c1Calls, wfSearchRows c.1 c.2) ∧
    ((1, 2) ∈ pairKeys c1Table ∧ (2, 1) ∈ pairKeys c1Table) := by
  with_unfolding_all decide

def c2Rows : List SearchRow := [⟨10, 33/67⟩, ⟨3, 1/2⟩]

/-- C2 counterexample: a wellformed vector-search result with candidates 10
(distance 33/67) and 3 (distance 1/2) both rounding to score 0.67 makes the
related step return link 10 before link 3 — equal scores, but the HIGHER
linkId first, contradicting the claimed tie-break of lower linkId first. The
code never consults linkId: it keeps the ascending-distance search order. -/
theorem c2_counterexample :
    wfSearchRows 1 c2Rows ∧
    (relatedStep 1 (.ok c2Rows) []).2 = [⟨10, 67/100⟩, ⟨3, 67/100⟩] ∧
    3 < 10 := by
  with_unfolding_all decide

def c4Calls : List (Nat × List SearchRow) :=
  [(2, [⟨1, 1/9⟩]), (3, [⟨1, 1/9⟩]), (4, [⟨1, 1/9⟩]),
   (5, [⟨1, 1/9⟩]), (6, [⟨1, 1/9⟩]), (7, [⟨1, 7/13⟩])]

def c4Table : RelTable := c4Calls.foldl runRelated []

/-- C4 counterexample: links 2..6 each find link 1 related at score 0.9 and
link 7 finds link 1 related at score 0.65; every table state is reached by
related-step executions on wellformed search results. GetRelations(1) caps at
5 entries and so drops link 7, yet GetRelations(7) still lists link 1: the
capped view is not symmetric, contradicting the claim. -/
theorem c4_counterexample :
    (∀ c ∈ c4Calls, wfSearchRows c.1 c.2) ∧
    ¬ 7 ∈ (getRelatedLinks 1 c4Table).map Prod.fst ∧
    1 ∈ (getRelatedLinks 7 c4Table).map Prod.fst := by
  with_unfolding_all decide

/- ── C1 amended: one row per ORDERED pair is invariant ── -/

theorem mem_filter_ne_linkId {t : RelTable} {linkId : Nat} {r : RelRow}
    (h : r ∈ t.filter (fun s => !(s.link_id == linkId))) : r.link_id ≠ linkId := by
  have h2 := (List.mem_filter.mp h).2
  simpa using h2

theorem pairKeys_nodup_save (linkId : Nat) (rels : List (Nat × ℚ)) (t : RelTable)
    (ht : (pairKeys t).Nodup) (hr : (rels.map Prod.fst).Nodup) :
    (pairKeys (saveRelatedLinks linkId rels t)).Nodup := by
  unfold saveRelatedLinks pairKeys
  rw [List.map_append]
  apply List.Nodup.append
  · exact ht.sublist (List.Sublist.map _ (List.filter_sublist t))
  · rw [List.map_map]
    have h1 : ((fun r : RelRow => (r.link_id, r.related_link_id)) ∘
        fun p : Nat × ℚ => (⟨linkId, p.1, p.2⟩ : RelRow)) =
        ((fun i : Nat => (linkId, i)) ∘ Prod.fst) := rfl
    rw [h1, ← List.map_map]
    exact hr.map fun a b h => by simpa using h
  · intro p hp hq
    simp only [List.mem_map] at hp hq
    obtain ⟨r, hr1, rfl⟩ := hp
    obtain ⟨q, hq1, hq2⟩ := hq
    obtain ⟨u, _, rfl⟩ := hq1
    have hne : r.link_id ≠ linkId := mem_filter_ne_linkId hr1
    exact hne (congrArg Prod.fst hq2).symm

theorem relatedStep_fst (linkId : Nat) (dbResult : Except String (List SearchRow))
    (t : RelTable) :
    (relatedStep linkId dbResult t).1 =
      saveRelatedLinks linkId
        ((relatedStep linkId dbResult t).2.map fun r => (r.id, r.score)) t := rfl

theorem relatedStep_snd (linkId : Nat) (dbResult : Except String (List SearchRow))
    (t : RelTable) :
    (relatedStep linkId dbResult t).2 =
      ((searchRelatedLinks dbResult).filter
        (fun r => decide (RELATED_SCORE_THRESHOLD ≤ r.score))).take RELATED_MAX_COUNT := rfl

theorem searchResults_ids (rows : List SearchRow) :
    (searchRelatedLinks (.ok rows)).map RelatedLinkResult.id = rows.map SearchRow.id := by
  unfold searchRelatedLinks
  rw [List.map_map]
  rfl

theorem relatedStep_out_ids_sublist (linkId : Nat) (rows : List SearchRow) (t : RelTable) :
    List.Sublist ((relatedStep linkId (.ok rows) t).2.map RelatedLinkResult.id)
      (rows.map SearchRow.id) := by
  rw [relatedStep_snd]
  refine List.Sublist.trans (List.Sublist.map _ (List.take_sublist _ _)) ?_
  refine List.Sublist.trans (List.Sublist.map _ (List.filter_sublist _)) ?_
  rw [searchResults_ids]

theorem pairKeys_nodup_runRelated (t : RelTable) (c : Nat × List SearchRow)
    (ht : (pairKeys t).Nodup) (hc : (c.2.map SearchRow.id).Nodup) :
    (pairKeys (runRelated t c)).Nodup := by
  unfold runRelated
  rw [relatedStep_fst]
  apply pairKeys_nodup_save _ _ _ ht
  rw [List.map_map]
  have h1 : (Prod.fst ∘ fun r : RelatedLinkResult => (r.id, r.score)) =
      RelatedLinkResult.id := rfl
  rw [h1]
  exact hc.sublist (relatedStep_out_ids_sublist c.1 c.2 t)

/-- C1 amended: over any sequence of related-step executions on wellformed
vector-search results (distinct candidate ids, as the links-table primary key
guarantees), every ORDERED pair (a,b) occurs in at most one link_relations
row. The two orientations (a,b) and (b,a) may nevertheless both be present;
reads deduplicate the pair keeping the larger score. -/
theorem c1_ordered_pair_unique (calls : List (Nat × List SearchRow)) (t : RelTable)
    (ht : (pairKeys t).Nodup)
    (hc : ∀ c ∈ calls, (c.2.map SearchRow.id).Nodup) :
    (pairKeys (calls.foldl runRelated t)).Nodup := by
  induction calls generalizing t with
  | nil => exact ht
  | cons c cs ih =>
    simp only [List.foldl_cons]
    exact ih (runRelated t c)
      (pairKeys_nodup_runRelated t c ht (hc c (List.mem_cons_self c cs)))
      fun c' h => hc c' (List.mem_cons_of_mem _ h)

/-- Witness for c1_ordered_pair_unique at the concrete two-call scenario. -/
theorem c1_ordered_pair_unique_witness :
    ((pairKeys ([] : RelTable)).Nodup ∧
      (∀ c ∈ c1Calls, (c.2.map SearchRow.id).Nodup)) ∧
    (pairKeys (c1Calls.foldl runRelated [])).Nodup :=
  ⟨⟨by decide, by with_unfolding_all decide⟩,
    c1_ordered_pair_unique c1Calls [] (by decide) (by with_unfolding_all decide)⟩

/- ── C2: related-step retention, truncation, write-back, order ── -/

theorem toScore_anti {d₁ d₂ : ℚ} (h0 : 0 ≤ d₁) (h : d₁ ≤ d₂) :
    toScore d₂ ≤ toScore d₁ := by
  unfold toScore
  have h1 : (0:ℚ) < 1 + d₁ := by linarith
  have h2 : (0:ℚ) < 1 + d₂ := by linarith
  have h3 : 1 / (1 + d₂) ≤ 1 / (1 + d₁) := one_div_le_one_div_of_le h1 (by linarith)
  have h5 := jsRound_mono (by linarith : (1 / (1 + d₂)) * 100 ≤ (1 / (1 + d₁)) * 100)
  have h6 : ((jsRound ((1 / (1 + d₂)) * 100) : ℤ) : ℚ) ≤
      ((jsRound ((1 / (1 + d₁)) * 100) : ℤ) : ℚ) := by exact_mod_cast h5
  linarith

theorem searchResults_pairwise_desc (rows : List SearchRow)
    (hnn : ∀ r ∈ rows, 0 ≤ r.distance)
    (hsorted : rows.Pairwise fun a b => a.distance ≤ b.distance) :
    (searchRelatedLinks (.ok rows)).Pairwise fun a b => b.score ≤ a.score := by
  unfold searchRelatedLinks
  rw [List.pairwise_map]
  exact hsorted.imp_of_mem fun ha _ h => toScore_anti (hnn _ ha) h

/-- C2 amended: the related step retains exactly the vector-search candidates
whose score is at least THRESHOLD 0.65 (equality retained), truncates to at
most MAX_RELATIONS 5 dropping only lowest-scoring candidates, replaces the
outgoing link_relations rows of the link with exactly the retained list, and
returns it with higher scores first. On equal rounded score the ascending
cosine-distance search order is kept; linkId is not consulted as a tie-break. -/
theorem c2_related_step (linkId : Nat) (rows : List SearchRow) (t : RelTable)
    (hnn : ∀ r ∈ rows, 0 ≤ r.distance)
    (hsorted : rows.Pairwise fun a b => a.distance ≤ b.distance) :
    (∀ r ∈ (relatedStep linkId (.ok rows) t).2, RELATED_SCORE_THRESHOLD ≤ r.score) ∧
    (∀ r ∈ (relatedStep linkId (.ok rows) t).2, r ∈ searchRelatedLinks (.ok rows)) ∧
    (relatedStep linkId (.ok rows) t).2.length ≤ RELATED_MAX_COUNT ∧
    (relatedStep linkId (.ok rows) t).2.Pairwise (fun a b => b.score ≤ a.score) ∧
    (∀ r ∈ searchRelatedLinks (.ok rows), RELATED_SCORE_THRESHOLD ≤ r.score →
      r ∉ (relatedStep linkId (.ok rows) t).2 →
      (relatedStep linkId (.ok rows) t).2.length = RELATED_MAX_COUNT ∧
        ∀ k ∈ (relatedStep linkId (.ok rows) t).2, r.score ≤ k.score) ∧
    ((relatedStep linkId (.ok rows) t).1.filter (fun r => r.link_id == linkId)).map
        (fun r => (r.related_link_id, r.score)) =
      (relatedStep linkId (.ok rows) t).2.map (fun r => (r.id, r.score)) ∧
    (relatedStep linkId (.ok rows) t).1.filter (fun r => !(r.link_id == linkId)) =
      t.filter (fun r => !(r.link_id == linkId)) := by
  have hsnd := relatedStep_snd linkId (.ok rows) t
  have hFdesc : ((searchRelatedLinks (.ok rows)).filter
      (fun r => decide (RELATED_SCORE_THRESHOLD ≤ r.score))).Pairwise
      (fun a b => b.score ≤ a.score) :=
    (searchResults_pairwise_desc rows hnn hsorted).filter _
  refine ⟨?_, ?_, ?_, ?_, ?_, ?_, ?_⟩
  · intro r hr
    rw [hsnd] at hr
    have h1 := List.mem_filter.mp (List.mem_of_mem_take hr)
    exact of_decide_eq_true h1.2
  · intro r hr
    rw [hsnd] at hr
    exact List.mem_of_mem_filter (List.mem_of_mem_take hr)
  · rw [hsnd]; exact List.length_take_le _ _
  · rw [hsnd]
    exact hFdesc.sublist (List.take_sublist _ _)
  · intro r hrS hrTh hrOut
    rw [hsnd] at hrOut ⊢
    set F := (searchRelatedLinks (.ok rows)).filter
      (fun r => decide (RELATED_SCORE_THRESHOLD ≤ r.score)) with hF
    have hrF : r ∈ F := List.mem_filter.mpr ⟨hrS, decide_eq_true hrTh⟩
    have hsplit : F.take RELATED_MAX_COUNT ++ F.drop RELATED_MAX_COUNT = F :=
      List.take_append_drop _ _
    have hrDrop : r ∈ F.drop RELATED_MAX_COUNT := by
      rcases (List.mem_append.mp (hsplit ▸ hrF)) with h | h
      · exact absurd h hrOut
      · exact h
    have hlen : RELATED_MAX_COUNT < F.length := by
      by_contra hle
      push_neg at hle
      rw [List.drop_eq_nil_of_le hle] at hrDrop
      exact absurd hrDrop (List.not_mem_nil r)
    constructor
    · rw [List.length_take]
      omega
    · intro k hk
      have hpw : (F.take RELATED_MAX_COUNT ++ F.drop RELATED_MAX_COUNT).Pairwise
          (fun a b => b.score ≤ a.score) := by rw [hsplit]; exact hFdesc
      exact (List.pairwise_append.mp hpw).2.2 k hk r hrDrop
  · rw [relatedStep_fst, saveRelatedLinks, List.filter_append]
    have hleft : (t.filter (fun r => !(r.link_id == linkId))).filter
        (fun r => r.link_id == linkId) = [] := by
      rw [List.filter_filter]
      have : ∀ a ∈ t, ((a.link_id == linkId) && !(a.link_id == linkId)) = false := by
        intro a _
        cases h : a.link_id == linkId <;> simp [h]
      rw [List.filter_congr this]
      exact List.filter_false t
    have hright : (((relatedStep linkId (.ok rows) t).2.map fun r =>
          ((r.id : Nat), r.score)).map fun p => (⟨linkId, p.1, p.2⟩ : RelRow)).filter
        (fun r => r.link_id == linkId) =
        ((relatedStep linkId (.ok rows) t).2.map fun r =>
          ((r.id : Nat), r.score)).map fun p => (⟨linkId, p.1, p.2⟩ : RelRow) := by
      rw [List.filter_eq_self]
      intro a ha
      simp only [List.mem_map] at ha
      obtain ⟨p, _, rfl⟩ := ha
      simp
    rw [hleft, hright, List.nil_append, List.map_map, List.map_map]
    rfl
  · rw [relatedStep_fst, saveRelatedLinks, List.filter_append]
    have hleft : (t.filter (fun r => !(r.link_id == linkId))).filter
        (fun r => !(r.link_id == linkId)) = t.filter (fun r => !(r.link_id == linkId)) := by
      rw [List.filter_filter]
      apply List.filter_congr
      intro a _
      cases h : a.link_id == linkId <;> simp [h]
    have hright : (((relatedStep linkId (.ok rows) t).2.map fun r =>
          ((r.id : Nat), r.score)).map fun p => (⟨linkId, p.1, p.2⟩ : RelRow)).filter
        (fun r => !(r.link_id == linkId)) = [] := by
      rw [List.filter_eq_nil_iff]
      intro a ha
      simp only [List.mem_map] at ha
      obtain ⟨p, _, rfl⟩ := ha
      simp
    rw [hleft, hright, List.append_nil]

/-- Witness for c2_related_step at the two-candidate scenario of c2Rows. -/
theorem c2_related_step_witness :
    ((∀ r ∈ c2Rows, 0 ≤ r.distance) ∧
      c2Rows.Pairwise (fun a b => a.distance ≤ b.distance)) ∧
    (∀ r ∈ (relatedStep 1 (.ok c2Rows) []).2, RELATED_SCORE_THRESHOLD ≤ r.score) :=
  ⟨⟨by with_unfolding_all decide, by with_unfolding_all decide⟩,
    (c2_related_step 1 c2Rows [] (by with_unfolding_all decide)
      (by with_unfolding_all decide)).1⟩

/- ── C3: getRelatedLinks specification ── -/

theorem lookupScore_eq_none {k : Nat} {l : List (Nat × ℚ)} :
    lookupScore k l = none ↔ k ∉ l.map Prod.fst := by
  induction l with
  | nil => simp [lookupScore]
  | cons p ps ih =>
    rw [lookupScore]
    by_cases h : p.1 = k
    · simp [h]
    · simp only [List.map_cons, List.mem_cons]
      rw [if_neg (by simpa using h)]
      rw [ih]
      constructor
      · intro hk hc
        rcases hc with hc | hc
        · exact h hc.symm
        · exact hk hc
      · intro hk hc
        exact hk (Or.inr hc)

theorem lookupScore_mem {k : Nat} {s : ℚ} {l : List (Nat × ℚ)}
    (h : lookupScore k l = some s) : (k, s) ∈ l := by
  induction l with
  | nil => simp [lookupScore] at h
  | cons p ps ih =>
    rw [lookupScore] at h
    by_cases hpk : p.1 = k
    · rw [if_pos (by simpa using hpk)] at h
      have h2 : p.2 = s := Option.some.inj h
      have h3 : p = (k, s) := by
        cases p
        simp only at hpk h2
        rw [hpk, h2]
      rw [← h3]
      exact List.mem_cons_self p ps
    · rw [if_neg (by simpa using hpk)] at h
      exact List.mem_cons_of_mem _ (ih h)

/-- Invariant of the JS Map merge loop in getRelatedLinks, after the entries
in seen have been processed into the accumulator acc: keys are distinct,
every accumulated pair is a seen entry whose value dominates all seen entries
with the same key, and every seen key is present. -/
def MergeInv (seen acc : List (Nat × ℚ)) : Prop :=
  (acc.map Prod.fst).Nodup ∧
  (∀ p ∈ acc, p ∈ seen ∧ ∀ q ∈ seen, q.1 = p.1 → q.2 ≤ p.2) ∧
  (∀ q ∈ seen, q.1 ∈ acc.map Prod.fst)

theorem mergeInv_insEntry {seen acc : List (Nat × ℚ)} {e : Nat × ℚ}
    (hinv : MergeInv seen acc) (hnnE : 0 ≤ e.2) :
    MergeInv (seen ++ [e]) (insEntry acc e) := by
  obtain ⟨hnd, hval, hcompl⟩ := hinv
  unfold insEntry
  cases hlook : lookupScore e.1 acc with
  | none =>
    have hkey : e.1 ∉ acc.map Prod.fst := lookupScore_eq_none.mp hlook
    refine ⟨?_, ?_, ?_⟩
    · rw [List.map_append]
      rw [List.nodup_append]
      refine ⟨hnd, List.nodup_singleton _, ?_⟩
      intro a ha hb
      simp only [List.map_cons, List.map_nil, List.mem_singleton] at hb
      rw [hb] at ha
      exact hkey ha
    · intro p hp
      rcases List.mem_append.mp hp with h | h
      · obtain ⟨hps, hpmax⟩ := hval p h
        refine ⟨List.mem_append.mpr (Or.inl hps), ?_⟩
        intro q hq hqk
        rcases List.mem_append.mp hq with hq | hq
        · exact hpmax q hq hqk
        · rw [List.mem_singleton] at hq
          subst hq
          exfalso
          exact hkey (hqk ▸ List.mem_map_of_mem Prod.fst h)
      · rw [List.mem_singleton] at h
        subst h
        refine ⟨List.mem_append.mpr (Or.inr (List.mem_singleton.mpr rfl)), ?_⟩
        intro q hq hqk
        rcases List.mem_append.mp hq with hq | hq
        · exfalso
          exact hkey (hqk ▸ hcompl q hq)
        · rw [List.mem_singleton] at hq
          subst hq
          exact le_refl _
    · intro q hq
      rw [List.map_append]
      rcases List.mem_append.mp hq with h | h
      · exact List.mem_append.mpr (Or.inl (hcompl q h))
      · rw [List.mem_singleton] at h
        subst h
        exact List.mem_append.mpr (Or.inr (by simp))
  | some s =>
    have hmem : (e.1, s) ∈ acc := lookupScore_mem hlook
    have huniq : ∀ p ∈ acc, p.1 = e.1 → p = (e.1, s) := by
      intro p hp hpk
      exact List.inj_on_of_nodup_map hnd hp hmem hpk
    show MergeInv (seen ++ [e])
      (if s = 0 ∨ s < e.2 then acc.map (fun p => if p.1 == e.1 then (p.1, e.2) else p)
        else acc)
    by_cases hcond : s = 0 ∨ s < e.2
    · rw [if_pos hcond]
      have hsle : s ≤ e.2 := by
        rcases hcond with h | h
        · rw [h]; exact hnnE
        · linarith
      have hkeys : ((acc.map fun p => if p.1 == e.1 then (p.1, e.2) else p).map Prod.fst) =
          acc.map Prod.fst := by
        rw [List.map_map]
        apply List.map_congr_left
        intro p _
        by_cases h : p.1 = e.1 <;> simp [h]
      refine ⟨by rw [hkeys]; exact hnd, ?_, ?_⟩
      · intro p' hp'
        simp only [List.mem_map] at hp'
        obtain ⟨p, hp, rfl⟩ := hp'
        by_cases h : p.1 = e.1
        · have hpe : p = (e.1, s) := huniq p hp h
          rw [if_pos (by simpa using h)]
          constructor
          · have : ((p.1 : Nat), e.2) = e := by
              cases e
              simp only at h ⊢
              rw [h]
            rw [this]
            exact List.mem_append.mpr (Or.inr (List.mem_singleton.mpr rfl))
          · intro q hq hqk
            simp only at hqk
            rcases List.mem_append.mp hq with hq | hq
            · have hq2 : q.2 ≤ s := (hval (e.1, s) hmem).2 q hq (by rw [hqk, h])
              simpa using le_trans hq2 hsle
            · rw [List.mem_singleton] at hq
              subst hq
              simp
        · rw [if_neg (by simpa using h)]
          obtain ⟨hps, hpmax⟩ := hval p hp
          refine ⟨List.mem_append.mpr (Or.inl hps), ?_⟩
          intro q hq hqk
          rcases List.mem_append.mp hq with hq | hq
          · exact hpmax q hq hqk
          · rw [List.mem_singleton] at hq
            subst hq
            exact absurd hqk.symm h
      · intro q hq
        rw [hkeys]
        rcases List.mem_append.mp hq with h | h
        · exact hcompl q h
        · rw [List.mem_singleton] at h
          rw [h]
          exact List.mem_map.mpr ⟨(e.1, s), hmem, rfl⟩
    · rw [if_neg hcond]
      push_neg at hcond
      refine ⟨hnd, ?_, ?_⟩
      · intro p hp
        obtain ⟨hps, hpmax⟩ := hval p hp
        refine ⟨List.mem_append.mpr (Or.inl hps), ?_⟩
        intro q hq hqk
        rcases List.mem_append.mp hq with hq | hq
        · exact hpmax q hq hqk
        · rw [List.mem_singleton] at hq
          have hpe : p = (e.1, s) := huniq p hp (by rw [← hq]; exact hqk.symm)
          rw [hq, hpe]
          exact hcond.2
      · intro q hq
        rcases List.mem_append.mp hq with h | h
        · exact hcompl q h
        · rw [List.mem_singleton] at h
          rw [h]
          exact List.mem_map.mpr ⟨(e.1, s), hmem, rfl⟩

theorem foldl_insEntry_inv (rest : List (Nat × ℚ)) :
    ∀ (seen acc : List (Nat × ℚ)), MergeInv seen acc → (∀ p ∈ rest, 0 ≤ p.2) →
      MergeInv (seen ++ rest) (rest.foldl insEntry acc) := by
  induction rest with
  | nil =>
    intro seen acc hinv _
    simpa using hinv
  | cons e rest ih =>
    intro seen acc hinv hnn
    have h1 := mergeInv_insEntry hinv (hnn e (List.mem_cons_self e rest))
    have h2 := ih (seen ++ [e]) (insEntry acc e) h1
      (fun p hp => hnn p (List.mem_cons_of_mem _ hp))
    rw [List.append_assoc, List.singleton_append] at h2
    simpa using h2

/-- Both directions of the relation rows touching a link, as the (otherId,
score) entry list that getRelatedLinks merges, outgoing rows first. -/
def relEntries (linkId : Nat) (t : RelTable) : List (Nat × ℚ) :=
  (t.filter (fun r => r.link_id == linkId)).map (fun r => (r.related_link_id, r.score)) ++
    (t.filter (fun r => r.related_link_id == linkId)).map (fun r => (r.link_id, r.score))

theorem mergedNeighbors_eq (linkId : Nat) (t : RelTable) :
    mergedNeighbors linkId t = (relEntries linkId t).foldl insEntry [] := rfl

/-- A relation row in either orientation connecting links a and b with score s. -/
def rowConnects (a b : Nat) (s : ℚ) (t : RelTable) : Prop :=
  ∃ r ∈ t, ((r.link_id = a ∧ r.related_link_id = b) ∨
    (r.link_id = b ∧ r.related_link_id = a)) ∧ r.score = s

instance (a b : Nat) (s : ℚ) (t : RelTable) : Decidable (rowConnects a b s t) := by
  unfold rowConnects; infer_instance

theorem mem_relEntries {linkId x : Nat} {s : ℚ} {t : RelTable} :
    (x, s) ∈ relEntries linkId t ↔ rowConnects linkId x s t := by
  unfold relEntries rowConnects
  simp only [List.mem_append, List.mem_map, List.mem_filter, beq_iff_eq, Prod.mk.injEq]
  constructor
  · rintro (⟨r, ⟨hr, hlink⟩, hrel, hs⟩ | ⟨r, ⟨hr, hrel⟩, hlink, hs⟩)
    · exact ⟨r, hr, Or.inl ⟨hlink, hrel⟩, hs⟩
    · exact ⟨r, hr, Or.inr ⟨hlink, hrel⟩, hs⟩
  · rintro ⟨r, hr, (⟨hlink, hrel⟩ | ⟨hlink, hrel⟩), hs⟩
    · exact Or.inl ⟨r, ⟨hr, hlink⟩, hrel, hs⟩
    · exact Or.inr ⟨r, ⟨hr, hrel⟩, hlink, hs⟩

theorem relEntries_nonneg {linkId : Nat} {t : RelTable} (hnn : ∀ r ∈ t, 0 ≤ r.score) :
    ∀ p ∈ relEntries linkId t, 0 ≤ p.2 := by
  intro p hp
  unfold relEntries at hp
  rcases List.mem_append.mp hp with h | h <;>
    · simp only [List.mem_map] at h
      obtain ⟨r, hr, rfl⟩ := h
      exact hnn r (List.mem_of_mem_filter hr)

theorem mergedNeighbors_inv (linkId : Nat) (t : RelTable) (hnn : ∀ r ∈ t, 0 ≤ r.score) :
    MergeInv (relEntries linkId t) (mergedNeighbors linkId t) := by
  rw [mergedNeighbors_eq]
  have h := foldl_insEntry_inv (relEntries linkId t) [] []
    ⟨List.nodup_nil, by simp, by simp⟩ (relEntries_nonneg hnn)
  simpa using h

/- ── Stable descending sort lemmas ── -/

theorem insDesc_perm (x : Nat × ℚ) (l : List (Nat × ℚ)) : (insDesc x l).Perm (x :: l) := by
  induction l with
  | nil => exact List.Perm.refl _
  | cons y ys ih =>
    rw [insDesc]
    by_cases h : y.2 ≤ x.2
    · rw [if_pos h]
    · rw [if_neg h]
      exact (ih.cons y).trans (List.Perm.swap x y ys)

theorem sortByScoreDesc_perm (l : List (Nat × ℚ)) : (sortByScoreDesc l).Perm l := by
  induction l with
  | nil => exact List.Perm.refl _
  | cons x xs ih =>
    rw [sortByScoreDesc]
    exact (insDesc_perm x (sortByScoreDesc xs)).trans (ih.cons x)

theorem insDesc_sorted {x : Nat × ℚ} {l : List (Nat × ℚ)}
    (h : l.Pairwise fun a b => b.2 ≤ a.2) :
    (insDesc x l).Pairwise fun a b => b.2 ≤ a.2 := by
  induction l with
  | nil => simp [insDesc]
  | cons y ys ih =>
    rw [insDesc]
    obtain ⟨hy, hys⟩ := List.pairwise_cons.mp h
    by_cases hc : y.2 ≤ x.2
    · rw [if_pos hc]
      rw [List.pairwise_cons]
      refine ⟨?_, h⟩
      intro z hz
      rcases List.mem_cons.mp hz with rfl | hz
      · exact hc
      · exact le_trans (hy z hz) hc
    · rw [if_neg hc]
      rw [List.pairwise_cons]
      refine ⟨?_, ih hys⟩
      intro z hz
      have hz2 := (insDesc_perm x ys).mem_iff.mp hz
      rcases List.mem_cons.mp hz2 with rfl | hz3
      · exact le_of_lt (lt_of_not_le hc)
      · exact hy z hz3

theorem sortByScoreDesc_sorted (l : List (Nat × ℚ)) :
    (sortByScoreDesc l).Pairwise fun a b => b.2 ≤ a.2 := by
  induction l with
  | nil => simp [sortByScoreDesc]
  | cons x xs ih =>
    rw [sortByScoreDesc]
    exact insDesc_sorted ih

theorem getRelatedLinks_eq (linkId : Nat) (t : RelTable) :
    getRelatedLinks linkId t = (sortByScoreDesc (mergedNeighbors linkId t)).take 5 := rfl

/-- C3: getRelatedLinks returns the union of outgoing rows (link_id = id) and
incoming rows (related_link_id = id), deduplicated by the other endpoint
keeping the maximum score, sorted by score descending, capped at 5 entries.
Scores of stored rows are nonnegative (every stored score is at least the
threshold 0.65 in reachable states). -/
theorem c3_get_relations (linkId : Nat) (t : RelTable) (hnn : ∀ r ∈ t, 0 ≤ r.score) :
    (getRelatedLinks linkId t).length ≤ 5 ∧
    ((getRelatedLinks linkId t).map Prod.fst).Nodup ∧
    ((getRelatedLinks linkId t).Pairwise fun p q => q.2 ≤ p.2) ∧
    (∀ p ∈ getRelatedLinks linkId t, rowConnects linkId p.1 p.2 t ∧
      ∀ s, rowConnects linkId p.1 s t → s ≤ p.2) ∧
    (∀ x s, rowConnects linkId x s t →
      (∃ s₂, (x, s₂) ∈ getRelatedLinks linkId t) ∨
        ((getRelatedLinks linkId t).length = 5 ∧
          ∀ q ∈ getRelatedLinks linkId t, s ≤ q.2)) := by
  obtain ⟨hnd, hval, hcompl⟩ := mergedNeighbors_inv linkId t hnn
  have hperm := sortByScoreDesc_perm (mergedNeighbors linkId t)
  have hsorted := sortByScoreDesc_sorted (mergedNeighbors linkId t)
  rw [getRelatedLinks_eq]
  refine ⟨List.length_take_le _ _, ?_, hsorted.sublist (List.take_sublist _ _), ?_, ?_⟩
  · have h1 : ((sortByScoreDesc (mergedNeighbors linkId t)).map Prod.fst).Nodup :=
      ((hperm.map Prod.fst).nodup_iff).mpr hnd
    rw [List.map_take]
    exact h1.sublist (List.take_sublist _ _)
  · intro p hp
    have hpM : p ∈ mergedNeighbors linkId t := hperm.mem_iff.mp (List.mem_of_mem_take hp)
    obtain ⟨hpe, hpmax⟩ := hval p hpM
    exact ⟨mem_relEntries.mp hpe, fun s hs => hpmax (p.1, s) (mem_relEntries.mpr hs) rfl⟩
  · intro x s hs
    have hxe : (x, s) ∈ relEntries linkId t := mem_relEntries.mpr hs
    obtain ⟨p, hpM, hpx⟩ := List.mem_map.mp (hcompl (x, s) hxe)
    have hpS : p ∈ sortByScoreDesc (mergedNeighbors linkId t) := hperm.mem_iff.mpr hpM
    have hsplit : (sortByScoreDesc (mergedNeighbors linkId t)).take 5 ++
        (sortByScoreDesc (mergedNeighbors linkId t)).drop 5 =
        sortByScoreDesc (mergedNeighbors linkId t) := List.take_append_drop _ _
    rcases List.mem_append.mp (hsplit.symm ▸ hpS) with h | h
    · left
      refine ⟨p.2, ?_⟩
      have hpx2 : p.1 = x := hpx
      have hpeta : ((x : Nat), p.2) = p := by
        rw [← hpx2]
      rw [hpeta]
      exact h
    · right
      have hlen5 : 5 < (sortByScoreDesc (mergedNeighbors linkId t)).length := by
        by_contra hle
        push_neg at hle
        rw [List.drop_eq_nil_of_le hle] at h
        exact absurd h (List.not_mem_nil p)
      constructor
      · rw [List.length_take]
        omega
      · intro q hq
        have h1 : s ≤ p.2 := (hval p hpM).2 (x, s) hxe (by rw [hpx])
        have hpw : ((sortByScoreDesc (mergedNeighbors linkId t)).take 5 ++
            (sortByScoreDesc (mergedNeighbors linkId t)).drop 5).Pairwise
            (fun a b => b.2 ≤ a.2) := by
          rw [hsplit]
          exact hsorted
        have h2 : p.2 ≤ q.2 := (List.pairwise_append.mp hpw).2.2 q hq p h
        linarith

def c3Table : RelTable := [⟨1, 2, 4/5⟩, ⟨3, 1, 7/10⟩]

/-- Witness for c3_get_relations at a concrete two-row table. -/
theorem c3_get_relations_witness :
    (∀ r ∈ c3Table, 0 ≤ r.score) ∧ (getRelatedLinks 1 c3Table).length ≤ 5 :=
  ⟨by with_unfolding_all decide,
    (c3_get_relations 1 c3Table (by with_unfolding_all decide)).1⟩

/- ── C4: symmetry of the merged relation view ── -/

theorem mem_keys_mergedNeighbors {a b : Nat} {t : RelTable}
    (hnn : ∀ r ∈ t, 0 ≤ r.score) :
    b ∈ (mergedNeighbors a t).map Prod.fst ↔ ∃ s, rowConnects a b s t := by
  obtain ⟨hnd, hval, hcompl⟩ := mergedNeighbors_inv a t hnn
  constructor
  · intro h
    obtain ⟨p, hpM, hpb⟩ := List.mem_map.mp h
    refine ⟨p.2, ?_⟩
    have h2 := mem_relEntries.mp (hval p hpM).1
    rw [← hpb]
    exact h2
  · rintro ⟨s, hs⟩
    exact hcompl (b, s) (mem_relEntries.mpr hs)

theorem rowConnects_sym {a b : Nat} {s : ℚ} {t : RelTable} :
    rowConnects a b s t ↔ rowConnects b a s t := by
  unfold rowConnects
  constructor <;>
  · rintro ⟨r, hr, h, hs⟩
    exact ⟨r, hr, h.symm, hs⟩

/-- C4 amended: GetRelations draws its entries from the merged two-direction
view, and membership in that merged view (the deduplicated union BEFORE the
final cap of 5) is symmetric: b is a merged neighbour of a exactly when a is a
merged neighbour of b. The cap of 5 applied afterwards can hide the relation
on one side, as the counterexample shows, so only the uncapped view is
symmetric. -/
theorem c4_merged_symmetry (a b : Nat) (t : RelTable)
    (hnn : ∀ r ∈ t, 0 ≤ r.score) :
    (∀ p ∈ getRelatedLinks a t, p.1 ∈ (mergedNeighbors a t).map Prod.fst) ∧
    (b ∈ (mergedNeighbors a t).map Prod.fst ↔
      a ∈ (mergedNeighbors b t).map Prod.fst) := by
  constructor
  · intro p hp
    rw [getRelatedLinks_eq] at hp
    have hpM : p ∈ mergedNeighbors a t :=
      (sortByScoreDesc_perm (mergedNeighbors a t)).mem_iff.mp (List.mem_of_mem_take hp)
    exact List.mem_map_of_mem Prod.fst hpM
  · rw [mem_keys_mergedNeighbors hnn, mem_keys_mergedNeighbors hnn]
    constructor <;>
    · rintro ⟨s, hs⟩
      exact ⟨s, rowConnects_sym.mp hs⟩

def c4Pair : RelTable := [⟨1, 2, 4/5⟩]

/-- Witness for c4_merged_symmetry at a concrete one-row table. -/
theorem c4_merged_symmetry_witness :
    (∀ r ∈ c4Pair, 0 ≤ r.score) ∧
    (2 ∈ (mergedNeighbors 1 c4Pair).map Prod.fst ↔
      1 ∈ (mergedNeighbors 2 c4Pair).map Prod.fst) :=
  ⟨by with_unfolding_all decide,
    (c4_merged_symmetry 1 2 c4Pair (by with_unfolding_all decide)).2⟩

/- ── Process-link handler（pipeline.ts process-link task） ── -/

deriving instance DecidableEq for Except

structure LinkRec where
  id : Nat
  user_id : Nat
  url : String
  status : String
  error_message : Option String
deriving DecidableEq, Repr

structure ProbeEventRec where
  id : String
  user_id : Nat
  link_id : Option Nat
  url : String
  url_type : String
  status : String
  result : Option String
  error : Option String
  sent_at : Option Nat
  completed_at : Option Nat
deriving DecidableEq, Repr

/-- Probe-supplied scrape payload; only its presence steers the handler. -/
structure ScrapeData where
  markdown : String
deriving DecidableEq, Repr

structure PipeState where
  links : List LinkRec
  nextLinkId : Nat
  probeEvents : List ProbeEventRec
  pushed : List (Nat × String × String)
  relTable : RelTable
  steps : List String
deriving DecidableEq, Repr

/-- Embedding of db.ts insertLink: INSERT with status pending, returning the
fresh serial id. -/
def insertLink (userId : Nat) (url : String) (st : PipeState) : PipeState × Nat :=
  ({ st with
      links := st.links ++ [⟨st.nextLinkId, userId, url, "pending", none⟩],
      nextLinkId := st.nextLinkId + 1 }, st.nextLinkId)

/-- Embedding of db.ts updateLink restricted to the fields the handler writes:
the row with the given id is updated in place. -/
def updateLink (id : Nat) (f : LinkRec → LinkRec) (st : PipeState) : PipeState :=
  { st with links := st.links.map fun l => if l.id == id then f l else l }

/-- The row with the largest id, as ORDER BY id DESC LIMIT 1 returns it. -/
def maxById : List LinkRec → Option LinkRec
  | [] => none
  | l :: ls =>
    match maxById ls with
    | none => some l
    | some m => if m.id ≤ l.id then some l else some m

/-- Embedding of db.ts getLinkByUrl: rows of the user with that url, ordered
by id descending, first row. -/
def getLinkByUrl (userId : Nat) (url : String) (links : List LinkRec) : Option LinkRec :=
  maxById (links.filter fun l => l.user_id == userId && l.url == url)

/-- Embedding of db.ts getLink: lookup by primary key. -/
def getLink (id : Nat) (st : PipeState) : Option LinkRec :=
  st.links.find? fun l => l.id == id

/-- Embedding of db.ts createProbeEvent: INSERT with status pending and null
result, error and timestamps. -/
def createProbeEvent (id : String) (userId : Nat) (linkId : Option Nat) (url urlType : String)
    (st : PipeState) : PipeState :=
  { st with probeEvents :=
      st.probeEvents ++ [⟨id, userId, linkId, url, urlType, "pending", none, none, none, none⟩] }

/-- Embedding of web.ts pushEventToProbe as the log of pushed events. -/
def pushEventToProbe (userId : Nat) (eventType : String) (eventId : String)
    (st : PipeState) : PipeState :=
  { st with pushed := st.pushed ++ [(userId, eventType, eventId)] }

structure ProcessLinkParams where
  userId : Nat
  url : String
  linkId : Option Nat
  scrapeData : Option ScrapeData
deriving DecidableEq, Repr

/-- Outcomes of the external collaborators each ctx.step invokes: the cloud
scraper, the summarizer LLM, the embedder, the vector search (whose DB result
feeds relatedStep) and the insight LLM. -/
structure StepOracles where
  scrape : Except String Unit
  summarize : Except String Unit
  embed : Except String Unit
  search : Except String (List SearchRow)
  insight : Except String Unit
deriving DecidableEq, Repr

inductive HandlerOutcome where
  | ok (status : String)
  | raised (msg : String)
deriving DecidableEq, Repr

/-- Embedding of the linkId resolution at the top of the process-link handler:
reuse the passed linkId, else look the url up, else insert. The reset call is
updateLink(linkId, status pending, error_message undefined); Kysely set()
skips entries whose value is undefined, so only the status column is written
and the stored error message is left unchanged. -/
def resolveLink (p : ProcessLinkParams) (st : PipeState) : Nat × PipeState :=
  match p.linkId with
  | some lid =>
    (lid, updateLink lid (fun l => { l with status := "pending" }) st)
  | none =>
    match getLinkByUrl p.userId p.url st.links with
    | some l =>
      (l.id, updateLink l.id (fun x => { x with status := "pending" }) st)
    | none =>
      let r := insertLink p.userId p.url st
      (r.2, r.1)

def runStep (name : String) (st : PipeState) : PipeState :=
  { st with steps := st.steps ++ [name] }

/-- Steps 2 to 6 of the handler body: summarize, embed, related, insight,
export, each memoized via ctx.step and failing when its collaborator throws. -/
def stepsAfterScrape (orc : StepOracles) (lid : Nat) (st : PipeState) :
    PipeState × Except String String :=
  let stS := runStep "summarize" st
  match orc.summarize with
  | .error m => (stS, .error m)
  | .ok _ =>
    let stE := runStep "embed" stS
    match orc.embed with
    | .error m => (stE, .error m)
    | .ok _ =>
      let stR := runStep "related" stE
      let t2 := (relatedStep lid orc.search stR.relTable).1
      let stR2 := { stR with relTable := t2 }
      let stI := runStep "insight" stR2
      match orc.insight with
      | .error m => (stI, .error m)
      | .ok _ =>
        let stI2 := updateLink lid (fun l => { l with status := "analyzed" }) stI
        let stX := runStep "export" stI2
        (stX, .ok "analyzed")

/-- Embedding of the try block of the process-link handler: probe-supplied
scrape, probe-required early return for Twitter urls, or cloud scrape, then
the remaining steps. -/
def processLinkBody (p : ProcessLinkParams) (twitterQ : String → Bool) (eventId : String)
    (orc : StepOracles) (lid : Nat) (st : PipeState) : PipeState × Except String String :=
  match p.scrapeData with
  | some _ =>
    let st1 := runStep "scrape" st
    let st2 := updateLink lid (fun l => { l with status := "scraped" }) st1
    stepsAfterScrape orc lid st2
  | none =>
    if twitterQ p.url then
      let st1 := createProbeEvent eventId p.userId (some lid) p.url "twitter" st
      let st2 := updateLink lid (fun l => { l with status := "waiting_probe" }) st1
      let st3 := pushEventToProbe p.userId "scrape_request" eventId st2
      (st3, .ok "waiting_probe")
    else
      let st1 := runStep "scrape" st
      match orc.scrape with
      | .error m => (st1, .error m)
      | .ok _ =>
        let st2 := updateLink lid (fun l => { l with status := "scraped" }) st1
        stepsAfterScrape orc lid st2

/-- The fixed permanent-error substring list of the handler catch. -/
def permanentErrors : List String :=
  ["Download is starting", "net::ERR_ABORTED", "Navigation failed because page was closed"]

def leadsWith : List Char → List Char → Bool
  | [], _ => true
  | x :: xs, ys =>
    match ys with
    | [] => false
    | y :: yt => x == y && leadsWith xs yt

def containsSeg (needle : List Char) : List Char → Bool
  | [] => leadsWith needle []
  | c :: rest => leadsWith needle (c :: rest) || containsSeg needle rest

/-- Embedding of the JS String.includes substring test. -/
def strIncludes (needle hay : String) : Bool :=
  containsSeg needle.data hay.data

def isPermanentError (msg : String) : Bool :=
  permanentErrors.any fun pe => strIncludes pe msg

/-- Embedding of the JS String.slice(0, n) character truncation. -/
def strTake (s : String) (n : Nat) : String :=
  ⟨s.data.take n⟩

/-- Embedding of the process-link handler: resolve the link, run the try
block, and on an exception write status error with the message truncated to
1000 characters, then swallow permanent errors and re-raise the rest. -/
def processLinkHandler (p : ProcessLinkParams) (twitterQ : String → Bool) (eventId : String)
    (orc : StepOracles) (st : PipeState) : PipeState × HandlerOutcome :=
  match processLinkBody p twitterQ eventId orc (resolveLink p st).1 (resolveLink p st).2 with
  | (st1, .ok s) => (st1, .ok s)
  | (st1, .error m) =>
    (updateLink (resolveLink p st).1
      (fun l => { l with status := "error", error_message := some (strTake m 1000) }) st1,
      if isPermanentError m then .ok "error" else .raised m)

/- ── Substring characterization ── -/

theorem leadsWith_iff (n : List Char) : ∀ h, leadsWith n h = true ↔ ∃ rest, h = n ++ rest := by
  induction n with
  | nil =>
    intro h
    simp [leadsWith]
  | cons a as ih =>
    intro h
    cases h with
    | nil => simp [leadsWith]
    | cons b bs =>
      show (a == b && leadsWith as bs) = true ↔ _
      simp only [Bool.and_eq_true, beq_iff_eq]
      constructor
      · rintro ⟨hab, hwd⟩
        obtain ⟨rest, rfl⟩ := (ih bs).mp hwd
        exact ⟨rest, by rw [List.cons_append, hab]⟩
      · rintro ⟨rest, heq⟩
        rw [List.cons_append] at heq
        injection heq with h1 h2
        exact ⟨h1.symm, (ih bs).mpr ⟨rest, h2⟩⟩

theorem containsSeg_iff (n : List Char) :
    ∀ h, containsSeg n h = true ↔ ∃ pre post, h = pre ++ n ++ post := by
  intro h
  induction h with
  | nil =>
    rw [containsSeg, leadsWith_iff]
    constructor
    · rintro ⟨rest, hr⟩
      obtain ⟨hn, hrest⟩ := List.append_eq_nil.mp hr.symm
      exact ⟨[], [], by rw [hn]; rfl⟩
    · rintro ⟨pre, post, hpp⟩
      rw [List.append_assoc] at hpp
      obtain ⟨hpre, hrest⟩ := List.append_eq_nil.mp hpp.symm
      obtain ⟨hn, hpost⟩ := List.append_eq_nil.mp hrest
      exact ⟨[], by rw [hn]; rfl⟩
  | cons c rest ih =>
    rw [containsSeg]
    simp only [Bool.or_eq_true]
    rw [leadsWith_iff, ih]
    constructor
    · rintro (⟨r, hr⟩ | ⟨pre, post, hpp⟩)
      · exact ⟨[], r, by simpa using hr⟩
      · exact ⟨c :: pre, post, by rw [hpp]; simp⟩
    · rintro ⟨pre, post, hpp⟩
      cases pre with
      | nil => exact Or.inl ⟨post, by simpa using hpp⟩
      | cons p ps =>
        right
        rw [List.cons_append, List.cons_append] at hpp
        injection hpp with h1 h2
        exact ⟨ps, post, by rw [List.append_assoc] at h2 ⊢; exact h2⟩

theorem strIncludes_iff (needle hay : String) :
    strIncludes needle hay = true ↔ ∃ pre post, hay.data = pre ++ needle.data ++ post :=
  containsSeg_iff needle.data hay.data

theorem isPermanentError_iff (m : String) :
    isPermanentError m = true ↔
      ((∃ pre post, m.data = pre ++ "Download is starting".data ++ post) ∨
       (∃ pre post, m.data = pre ++ "net::ERR_ABORTED".data ++ post) ∨
       (∃ pre post, m.data = pre ++ "Navigation failed because page was closed".data ++ post)) := by
  unfold isPermanentError permanentErrors
  simp only [List.any_cons, List.any_nil, Bool.or_eq_true, Bool.or_false]
  rw [strIncludes_iff, strIncludes_iff, strIncludes_iff]

/-- C5: whenever the step sequence of the process-link handler raises with a
message, the handler writes status error and the message truncated to 1000
characters to the link, and returns without re-raising exactly when the
message contains one of the three fixed substrings (else the exception is
re-raised so the runtime retry policy applies). -/
theorem c5_handler_catch (p : ProcessLinkParams) (twitterQ : String → Bool)
    (eventId : String) (orc : StepOracles) (st : PipeState) (m : String)
    (h : (processLinkBody p twitterQ eventId orc
      (resolveLink p st).1 (resolveLink p st).2).2 = .error m) :
    processLinkHandler p twitterQ eventId orc st =
      (updateLink (resolveLink p st).1
        (fun l => { l with status := "error", error_message := some (strTake m 1000) })
        (processLinkBody p twitterQ eventId orc
          (resolveLink p st).1 (resolveLink p st).2).1,
        if isPermanentError m then .ok "error" else .raised m) ∧
    (strTake m 1000).length ≤ 1000 ∧
    ((processLinkHandler p twitterQ eventId orc st).2 = .ok "error" ↔
      ((∃ pre post, m.data = pre ++ "Download is starting".data ++ post) ∨
       (∃ pre post, m.data = pre ++ "net::ERR_ABORTED".data ++ post) ∨
       (∃ pre post, m.data = pre ++ "Navigation failed because page was closed".data ++ post))) ∧
    ((processLinkHandler p twitterQ eventId orc st).2 = .raised m ↔
      ¬ ((∃ pre post, m.data = pre ++ "Download is starting".data ++ post) ∨
       (∃ pre post, m.data = pre ++ "net::ERR_ABORTED".data ++ post) ∨
       (∃ pre post, m.data = pre ++ "Navigation failed because page was closed".data ++ post))) := by
  have hpair : processLinkBody p twitterQ eventId orc
      (resolveLink p st).1 (resolveLink p st).2 =
      ((processLinkBody p twitterQ eventId orc
        (resolveLink p st).1 (resolveLink p st).2).1, Except.error m) := by
    rw [← h]
  have heq : processLinkHandler p twitterQ eventId orc st =
      (updateLink (resolveLink p st).1
        (fun l => { l with status := "error", error_message := some (strTake m 1000) })
        (processLinkBody p twitterQ eventId orc
          (resolveLink p st).1 (resolveLink p st).2).1,
        if isPermanentError m then .ok "error" else .raised m) := by
    unfold processLinkHandler
    rw [hpair]
  refine ⟨heq, ?_, ?_, ?_⟩
  · show (m.data.take 1000).length ≤ 1000
    rw [List.length_take]
    omega
  · rw [heq]
    rw [← isPermanentError_iff]
    by_cases hcond : isPermanentError m = true
    · simp [hcond]
    · simp only [Bool.not_eq_true] at hcond
      simp [hcond]
  · rw [heq]
    rw [← isPermanentError_iff]
    by_cases hcond : isPermanentError m = true
    · simp [hcond]
    · simp only [Bool.not_eq_true] at hcond
      simp [hcond]

def c5Params : ProcessLinkParams := ⟨42, "https://example.com/doc.pdf", some 1, none⟩

def c5State : PipeState := ⟨[⟨1, 42, "https://example.com/doc.pdf", "pending", none⟩],
  2, [], [], [], []⟩

def c5Oracles : StepOracles :=
  ⟨.error "Download is starting", .ok (), .ok (), .ok [], .ok ()⟩

/-- Witness for c5_handler_catch: a cloud scrape failing with the permanent
message Download is starting. -/
theorem c5_handler_catch_witness :
    ((processLinkBody c5Params (fun _ => false) "ev1" c5Oracles
      (resolveLink c5Params c5State).1 (resolveLink c5Params c5State).2).2 =
        .error "Download is starting") ∧
    (strTake "Download is starting" 1000).length ≤ 1000 :=
  ⟨by with_unfolding_all decide,
    (c5_handler_catch c5Params (fun _ => false) "ev1" c5Oracles c5State
      "Download is starting" (by with_unfolding_all decide)).2.1⟩

/- ── C6: the probe-required branch ── -/

theorem maxById_mem {l : List LinkRec} {m : LinkRec} (h : maxById l = some m) : m ∈ l := by
  induction l generalizing m with
  | nil => simp [maxById] at h
  | cons x xs ih =>
    rw [maxById] at h
    cases hx : maxById xs with
    | none =>
      rw [hx] at h
      have h2 : some x = some m := h
      exact (Option.some.inj h2) ▸ List.mem_cons_self x xs
    | some y =>
      rw [hx] at h
      have h2 : (if y.id ≤ x.id then some x else some y) = some m := h
      by_cases hc : y.id ≤ x.id
      · rw [if_pos hc] at h2
        exact (Option.some.inj h2) ▸ List.mem_cons_self x xs
      · rw [if_neg hc] at h2
        exact List.mem_cons_of_mem x (ih ((Option.some.inj h2) ▸ hx))

theorem getLinkByUrl_mem {userId : Nat} {url : String} {links : List LinkRec} {l : LinkRec}
    (h : getLinkByUrl userId url links = some l) : l ∈ links :=
  List.mem_of_mem_filter (maxById_mem h)

theorem mem_updateLink_self (st : PipeState) (id : Nat) (f : LinkRec → LinkRec) (l : LinkRec)
    (hl : l ∈ st.links) (hid : l.id = id) : f l ∈ (updateLink id f st).links := by
  unfold updateLink
  have h1 : (fun x : LinkRec => if x.id == id then f x else x) l = f l := by
    simp [hid]
  rw [← h1]
  exact List.mem_map_of_mem _ hl

/-- C6: when the url is Twitter-kind (the predicate is a parameter, standing
for the imported isTwitterUrl) and no probe-supplied scrapeData is present,
the handler creates a pending ProbeEvent for the resolved link, sets the link
status to waiting_probe, pushes a scrape_request event to the user, returns
status waiting_probe, and executes none of the memoized steps (the executed
step log is unchanged, so summarize, embed, related, insight and export never
run). -/
theorem c6_probe_required (p : ProcessLinkParams) (twitterQ : String → Bool)
    (eventId : String) (orc : StepOracles) (st : PipeState)
    (hT : twitterQ p.url = true) (hS : p.scrapeData = none) :
    processLinkHandler p twitterQ eventId orc st =
      (pushEventToProbe p.userId "scrape_request" eventId
        (updateLink (resolveLink p st).1 (fun l => { l with status := "waiting_probe" })
          (createProbeEvent eventId p.userId (some (resolveLink p st).1) p.url "twitter"
            (resolveLink p st).2)),
        .ok "waiting_probe") ∧
    (⟨eventId, p.userId, some (resolveLink p st).1, p.url, "twitter", "pending",
        none, none, none, none⟩ : ProbeEventRec) ∈
      (processLinkHandler p twitterQ eventId orc st).1.probeEvents ∧
    (p.userId, "scrape_request", eventId) ∈
      (processLinkHandler p twitterQ eventId orc st).1.pushed ∧
    (processLinkHandler p twitterQ eventId orc st).1.steps = st.steps ∧
    (∀ l ∈ (processLinkHandler p twitterQ eventId orc st).1.links,
      l.id = (resolveLink p st).1 → l.status = "waiting_probe") ∧
    (p.linkId = none → ∃ l ∈ (processLinkHandler p twitterQ eventId orc st).1.links,
      l.id = (resolveLink p st).1 ∧ l.status = "waiting_probe") := by
  have hbody : processLinkBody p twitterQ eventId orc
      (resolveLink p st).1 (resolveLink p st).2 =
      (pushEventToProbe p.userId "scrape_request" eventId
        (updateLink (resolveLink p st).1 (fun l => { l with status := "waiting_probe" })
          (createProbeEvent eventId p.userId (some (resolveLink p st).1) p.url "twitter"
            (resolveLink p st).2)),
        .ok "waiting_probe") := by
    unfold processLinkBody
    rw [hS]
    simp [hT]
  have hh : processLinkHandler p twitterQ eventId orc st =
      (pushEventToProbe p.userId "scrape_request" eventId
        (updateLink (resolveLink p st).1 (fun l => { l with status := "waiting_probe" })
          (createProbeEvent eventId p.userId (some (resolveLink p st).1) p.url "twitter"
            (resolveLink p st).2)),
        .ok "waiting_probe") := by
    unfold processLinkHandler
    rw [hbody]
  have hre : (resolveLink p st).2.probeEvents = st.probeEvents := by
    unfold resolveLink
    cases hp : p.linkId with
    | some lid => simp [updateLink]
    | none =>
      cases hg : getLinkByUrl p.userId p.url st.links with
      | some l => simp [updateLink]
      | none => simp [insertLink]
  have hrp : (resolveLink p st).2.pushed = st.pushed := by
    unfold resolveLink
    cases hp : p.linkId with
    | some lid => simp [updateLink]
    | none =>
      cases hg : getLinkByUrl p.userId p.url st.links with
      | some l => simp [updateLink]
      | none => simp [insertLink]
  have hrs : (resolveLink p st).2.steps = st.steps := by
    unfold resolveLink
    cases hp : p.linkId with
    | some lid => simp [updateLink]
    | none =>
      cases hg : getLinkByUrl p.userId p.url st.links with
      | some l => simp [updateLink]
      | none => simp [insertLink]
  refine ⟨hh, ?_, ?_, ?_, ?_, ?_⟩
  · rw [hh]
    show _ ∈ ((resolveLink p st).2.probeEvents ++ _)
    rw [hre]
    exact List.mem_append.mpr (Or.inr (List.mem_singleton.mpr rfl))
  · rw [hh]
    show _ ∈ ((resolveLink p st).2.pushed ++ _)
    rw [hrp]
    exact List.mem_append.mpr (Or.inr (List.mem_singleton.mpr rfl))
  · rw [hh]
    exact hrs
  · rw [hh]
    intro l hl hid
    simp only [pushEventToProbe, updateLink, createProbeEvent, List.mem_map] at hl
    obtain ⟨x, hx, rfl⟩ := hl
    by_cases h : x.id = (resolveLink p st).1
    · simp [h]
    · exfalso
      rw [if_neg (by simpa using h)] at hid
      exact h hid
  · intro hpnone
    rw [hh]
    show ∃ l ∈ (updateLink (resolveLink p st).1
        (fun l => { l with status := "waiting_probe" })
        (createProbeEvent eventId p.userId (some (resolveLink p st).1) p.url "twitter"
          (resolveLink p st).2)).links, l.id = (resolveLink p st).1 ∧
        l.status = "waiting_probe"
    cases hg : getLinkByUrl p.userId p.url st.links with
    | some l =>
      have hr1 : (resolveLink p st).1 = l.id := by
        unfold resolveLink
        rw [hpnone, hg]
      have hr2 : (resolveLink p st).2 = updateLink l.id
          (fun x => { x with status := "pending" }) st := by
        unfold resolveLink
        rw [hpnone, hg]
      have h1 : ({ l with status := "pending" } : LinkRec) ∈
          (createProbeEvent eventId p.userId (some (resolveLink p st).1) p.url "twitter"
            (resolveLink p st).2).links := by
        show _ ∈ (resolveLink p st).2.links
        rw [hr2]
        exact mem_updateLink_self _ _ _ _ (getLinkByUrl_mem hg) rfl
      refine ⟨{ l with status := "waiting_probe" }, ?_, ?_, rfl⟩
      · have h2 := mem_updateLink_self (createProbeEvent eventId p.userId
          (some (resolveLink p st).1) p.url "twitter" (resolveLink p st).2)
          (resolveLink p st).1 (fun x => { x with status := "waiting_probe" })
          _ h1 (by simp [hr1])
        exact h2
      · simp [hr1]
    | none =>
      have hr1 : (resolveLink p st).1 = st.nextLinkId := by
        unfold resolveLink
        rw [hpnone, hg]
        rfl
      have hr2 : (resolveLink p st).2.links =
          st.links ++ [⟨st.nextLinkId, p.userId, p.url, "pending", none⟩] := by
        unfold resolveLink
        rw [hpnone, hg]
        rfl
      have h1 : (⟨st.nextLinkId, p.userId, p.url, "pending", none⟩ : LinkRec) ∈
          (createProbeEvent eventId p.userId (some (resolveLink p st).1) p.url "twitter"
            (resolveLink p st).2).links := by
        show _ ∈ (resolveLink p st).2.links
        rw [hr2]
        exact List.mem_append.mpr (Or.inr (List.mem_singleton.mpr rfl))
      refine ⟨⟨st.nextLinkId, p.userId, p.url, "waiting_probe", none⟩, ?_, ?_, rfl⟩
      · have h2 := mem_updateLink_self (createProbeEvent eventId p.userId
          (some (resolveLink p st).1) p.url "twitter" (resolveLink p st).2)
          (resolveLink p st).1 (fun x => { x with status := "waiting_probe" })
          _ h1 (by simp [hr1])
        exact h2
      · simp [hr1]

def c6Params : ProcessLinkParams := ⟨7, "https://twitter.com/x/status/123", none, none⟩

def c6State : PipeState := ⟨[], 1, [], [], [], []⟩

def c6Orc : StepOracles := ⟨.ok (), .ok (), .ok (), .ok [], .ok ()⟩

def c6TwitterQ : String → Bool := fun u => u == "https://twitter.com/x/status/123"

/-- Witness for c6_probe_required at a concrete Twitter submission. -/
theorem c6_probe_required_witness :
    (c6TwitterQ c6Params.url = true ∧ c6Params.scrapeData = none) ∧
    (⟨"ev2", c6Params.userId, some (resolveLink c6Params c6State).1, c6Params.url,
        "twitter", "pending", none, none, none, none⟩ : ProbeEventRec) ∈
      (processLinkHandler c6Params c6TwitterQ "ev2" c6Orc c6State).1.probeEvents :=
  ⟨⟨by with_unfolding_all decide, rfl⟩,
    (c6_probe_required c6Params c6TwitterQ "ev2" c6Orc c6State
      (by with_unfolding_all decide) rfl).2.1⟩

/- ── C10: vector-search failure inside the related step ── -/

/-- C10: when the vector search fails with a store or search error, the catch
in searchRelatedLinks swallows it and yields the empty candidate list; the
related step therefore calls SaveRelations with an empty set, which deletes
every stored outgoing relation row of the link (all other rows survive), and
the process-link task still completes with status analyzed. -/
theorem c10_search_failure (p : ProcessLinkParams) (twitterQ : String → Bool)
    (eventId : String) (orc : StepOracles) (st : PipeState) (e : String)
    (hS : p.scrapeData = none) (hT : twitterQ p.url = false)
    (hsc : orc.scrape = .ok ()) (hsum : orc.summarize = .ok ())
    (hemb : orc.embed = .ok ()) (hins : orc.insight = .ok ())
    (hsearch : orc.search = .error e) :
    (processLinkHandler p twitterQ eventId orc st).2 = .ok "analyzed" ∧
    searchRelatedLinks (.error e) = [] ∧
    (relatedStep (resolveLink p st).1 (.error e) st.relTable).2 = [] ∧
    (processLinkHandler p twitterQ eventId orc st).1.relTable =
      st.relTable.filter (fun r => !(r.link_id == (resolveLink p st).1)) ∧
    (∀ r ∈ (processLinkHandler p twitterQ eventId orc st).1.relTable,
      r.link_id ≠ (resolveLink p st).1) ∧
    (∀ r ∈ st.relTable, r.link_id ≠ (resolveLink p st).1 →
      r ∈ (processLinkHandler p twitterQ eventId orc st).1.relTable) := by
  have hrt : (resolveLink p st).2.relTable = st.relTable := by
    unfold resolveLink
    cases hp : p.linkId with
    | some lid => simp [updateLink]
    | none =>
      cases hg : getLinkByUrl p.userId p.url st.links with
      | some l => simp [updateLink]
      | none => simp [insertLink]
  have hbody : processLinkBody p twitterQ eventId orc
      (resolveLink p st).1 (resolveLink p st).2 =
      (runStep "export" (updateLink (resolveLink p st).1
        (fun l => { l with status := "analyzed" }) (runStep "insight"
          ({ runStep "related" (runStep "embed" (runStep "summarize"
              (updateLink (resolveLink p st).1 (fun l => { l with status := "scraped" })
                (runStep "scrape" (resolveLink p st).2)))) with
            relTable := (relatedStep (resolveLink p st).1 orc.search
              (runStep "related" (runStep "embed" (runStep "summarize"
                (updateLink (resolveLink p st).1
                  (fun l => { l with status := "scraped" })
                  (runStep "scrape" (resolveLink p st).2))))).relTable).1 }))),
        .ok "analyzed") := by
    unfold processLinkBody stepsAfterScrape
    rw [hS, hsc, hsum, hemb, hins]
    simp [hT]
  have hh : processLinkHandler p twitterQ eventId orc st =
      (runStep "export" (updateLink (resolveLink p st).1
        (fun l => { l with status := "analyzed" }) (runStep "insight"
          ({ runStep "related" (runStep "embed" (runStep "summarize"
              (updateLink (resolveLink p st).1 (fun l => { l with status := "scraped" })
                (runStep "scrape" (resolveLink p st).2)))) with
            relTable := (relatedStep (resolveLink p st).1 orc.search
              (runStep "related" (runStep "embed" (runStep "summarize"
                (updateLink (resolveLink p st).1
                  (fun l => { l with status := "scraped" })
                  (runStep "scrape" (resolveLink p st).2))))).relTable).1 }))),
        .ok "analyzed") := by
    unfold processLinkHandler
    rw [hbody]
  have hrel1 : ∀ t : RelTable, (relatedStep (resolveLink p st).1 (.error e) t).1 =
      t.filter (fun r => !(r.link_id == (resolveLink p st).1)) := by
    intro t
    rw [relatedStep_fst, relatedStep_snd]
    show saveRelatedLinks _ _ _ = _
    unfold saveRelatedLinks searchRelatedLinks
    simp
  have hfinal : (processLinkHandler p twitterQ eventId orc st).1.relTable =
      st.relTable.filter (fun r => !(r.link_id == (resolveLink p st).1)) := by
    rw [hh]
    show (relatedStep (resolveLink p st).1 orc.search _).1 = _
    rw [hsearch]
    rw [hrel1]
    show ((resolveLink p st).2.relTable).filter _ = _
    rw [hrt]
  refine ⟨by rw [hh], rfl, by rw [relatedStep_snd]; rfl, hfinal, ?_, ?_⟩
  · intro r hr
    rw [hfinal] at hr
    have h2 := (List.mem_filter.mp hr).2
    simpa using h2
  · intro r hr hne
    rw [hfinal]
    exact List.mem_filter.mpr ⟨hr, by simpa using hne⟩

def c10State : PipeState := ⟨[⟨1, 42, "https://example.com/a", "pending", none⟩], 2, [], [],
  [⟨1, 9, 7/10⟩, ⟨3, 1, 4/5⟩], []⟩

def c10Params : ProcessLinkParams := ⟨42, "https://example.com/a", some 1, none⟩

def c10Orc : StepOracles := ⟨.ok (), .ok (), .ok (), .error "store unavailable", .ok ()⟩

/-- Witness for c10_search_failure at a concrete state with one outgoing and
one incoming relation row for link 1. -/
theorem c10_search_failure_witness :
    (c10Params.scrapeData = none ∧ (fun _ : String => false) c10Params.url = false ∧
      c10Orc.scrape = .ok () ∧ c10Orc.summarize = .ok () ∧ c10Orc.embed = .ok () ∧
      c10Orc.insight = .ok () ∧ c10Orc.search = .error "store unavailable") ∧
    (processLinkHandler c10Params (fun _ => false) "ev3" c10Orc c10State).2 =
      .ok "analyzed" :=
  ⟨⟨rfl, rfl, rfl, rfl, rfl, rfl, rfl⟩,
    (c10_search_failure c10Params (fun _ => false) "ev3" c10Orc c10State
      "store unavailable" rfl rfl rfl rfl rfl rfl rfl).1⟩

/- ── C7: the device-token endpoint（web.ts POST /api/auth/token） ── -/

structure DeviceAuthRequest where
  device_code : String
  user_code : String
  status : String
  user_id : Option Nat
  expires_at : Int
deriving DecidableEq, Repr

structure ProbeDeviceRec where
  id : String
  user_id : Nat
  access_token : String
deriving DecidableEq, Repr

inductive TokenResp where
  | err (code : String)
  | ok (accessToken : String) (userId : Nat)
deriving DecidableEq, Repr

def hexChars : List Char := "0123456789abcdef".data

def hexDigit (n : Nat) : Char := hexChars.getD n '0'

/-- Node Buffer toString hex: two lowercase hex digits per byte, high nibble
first. -/
def bytesToHex (bs : List Nat) : List Char :=
  (bs.map fun b => [hexDigit (b / 16 % 16), hexDigit (b % 16)]).flatten

/-- Embedding of the POST /api/auth/token handler. The DB lookup result and
the random bytes of crypto.randomBytes are inputs. The JS truthiness test on
authReq.user_id treats a missing user and user id 0 alike. -/
def pollDeviceToken (bodyDeviceCode : Option String) (lookup : Option DeviceAuthRequest)
    (now : Int) (deviceIdBytes tokenBytes : List Nat) (devices : List ProbeDeviceRec) :
    TokenResp × List ProbeDeviceRec :=
  match bodyDeviceCode with
  | none => (.err "missing_device_code", devices)
  | some _ =>
    match lookup with
    | none => (.err "invalid_device_code", devices)
    | some ar =>
      if ar.expires_at < now then (.err "expired_token", devices)
      else if ar.status == "pending" then (.err "authorization_pending", devices)
      else if ar.status == "authorized" && !(ar.user_id.getD 0 == 0) then
        (.ok (⟨'l' :: 'm' :: 'p' :: '_' :: bytesToHex tokenBytes⟩ : String)
          (ar.user_id.getD 0),
          devices ++ [⟨⟨bytesToHex deviceIdBytes⟩, ar.user_id.getD 0,
            ⟨'l' :: 'm' :: 'p' :: '_' :: bytesToHex tokenBytes⟩⟩])
      else (.err "unknown_status", devices)

theorem bytesToHex_length (bs : List Nat) : (bytesToHex bs).length = 2 * bs.length := by
  induction bs with
  | nil => rfl
  | cons b rest ih =>
    show (List.flatten _).length = _
    rw [List.map_cons, List.flatten_cons, List.length_append]
    rw [show (List.flatten (rest.map fun b => [hexDigit (b / 16 % 16), hexDigit (b % 16)])) =
      bytesToHex rest from rfl]
    rw [ih]
    simp [Nat.mul_succ]
    omega

theorem hexDigit_mem (n : Nat) : hexDigit n ∈ hexChars := by
  unfold hexDigit
  by_cases h : n < 16
  · interval_cases n <;> decide
  · have hle : hexChars.length ≤ n := by
      have hlen16 : hexChars.length = 16 := by decide
      omega
    rw [List.getD_eq_default _ _ hle]
    decide

theorem bytesToHex_mem (bs : List Nat) : ∀ c ∈ bytesToHex bs, c ∈ hexChars := by
  induction bs with
  | nil => intro c hc; simp [bytesToHex] at hc
  | cons b rest ih =>
    intro c hc
    have h2 : c ∈ ([hexDigit (b / 16 % 16), hexDigit (b % 16)] ++ bytesToHex rest) := hc
    rcases List.mem_append.mp h2 with h | h
    · rcases List.mem_cons.mp h with rfl | h3
      · exact hexDigit_mem _
      · rcases List.mem_cons.mp h3 with rfl | h4
        · exact hexDigit_mem _
        · exact absurd h4 (List.not_mem_nil c)
    · exact ih c h

/-- C7: polling the token endpoint with a known device code: past expiry the
response is expired_token; else a pending request answers
authorization_pending; else an authorized request with an attached user mints
a probe device and returns an access token of the shape lmp_ followed by 32
lowercase hex characters, together with the user id. -/
theorem c7_poll_device_token (dc : String) (ar : DeviceAuthRequest) (now : Int)
    (deviceIdBytes tokenBytes : List Nat) (devices : List ProbeDeviceRec)
    (hlen : tokenBytes.length = 16) :
    (ar.expires_at < now →
      (pollDeviceToken (some dc) (some ar) now deviceIdBytes tokenBytes devices) =
        (.err "expired_token", devices)) ∧
    (¬ ar.expires_at < now → ar.status = "pending" →
      (pollDeviceToken (some dc) (some ar) now deviceIdBytes tokenBytes devices) =
        (.err "authorization_pending", devices)) ∧
    (∀ uid, ¬ ar.expires_at < now → ar.status = "authorized" → ar.user_id = some uid →
      0 < uid →
      ∃ tok : String,
        (pollDeviceToken (some dc) (some ar) now deviceIdBytes tokenBytes devices).1 =
          .ok tok uid ∧
        tok.length = 36 ∧
        tok.data.take 4 = ['l', 'm', 'p', '_'] ∧
        (∀ c ∈ tok.data.drop 4, c ∈ hexChars) ∧
        (pollDeviceToken (some dc) (some ar) now deviceIdBytes tokenBytes devices).2 =
          devices ++ [⟨⟨bytesToHex deviceIdBytes⟩, uid, tok⟩]) := by
  refine ⟨?_, ?_, ?_⟩
  · intro hexp
    show (if ar.expires_at < now then ((.err "expired_token", devices) :
        TokenResp × List ProbeDeviceRec) else _) = _
    rw [if_pos hexp]
  · intro hexp hpend
    show (if ar.expires_at < now then ((.err "expired_token", devices) :
        TokenResp × List ProbeDeviceRec) else _) = _
    rw [if_neg hexp]
    show (if ar.status == "pending" then ((.err "authorization_pending", devices) :
        TokenResp × List ProbeDeviceRec) else _) = _
    rw [if_pos (by rw [hpend]; rfl)]
  · intro uid hexp hauth huid hpos
    have hb1 : (ar.status == "pending") = false := by
      rw [hauth]
      decide
    have hb2 : (ar.status == "authorized" && !(ar.user_id.getD 0 == 0)) = true := by
      rw [hauth, huid]
      show ((("authorized" : String) == "authorized") && !((uid : Nat) == 0)) = true
      have hz : ((uid : Nat) == 0) = false := by
        simp
        omega
      simp [hz]
    have hred : pollDeviceToken (some dc) (some ar) now deviceIdBytes tokenBytes devices =
        (.ok (⟨'l' :: 'm' :: 'p' :: '_' :: bytesToHex tokenBytes⟩ : String) uid,
          devices ++ [⟨⟨bytesToHex deviceIdBytes⟩, uid,
            ⟨'l' :: 'm' :: 'p' :: '_' :: bytesToHex tokenBytes⟩⟩]) := by
      show (if ar.expires_at < now then ((.err "expired_token", devices) :
          TokenResp × List ProbeDeviceRec) else _) = _
      rw [if_neg hexp]
      show (if ar.status == "pending" then ((.err "authorization_pending", devices) :
          TokenResp × List ProbeDeviceRec) else _) = _
      rw [if_neg (by rw [hb1]; exact Bool.false_ne_true)]
      show (if ar.status == "authorized" && !(ar.user_id.getD 0 == 0) then _ else
          ((.err "unknown_status", devices) : TokenResp × List ProbeDeviceRec)) = _
      rw [if_pos hb2]
      rw [huid]
      rfl
    refine ⟨⟨'l' :: 'm' :: 'p' :: '_' :: bytesToHex tokenBytes⟩, ?_, ?_, rfl, ?_, ?_⟩
    · rw [hred]
    · show ('l' :: 'm' :: 'p' :: '_' :: bytesToHex tokenBytes).length = 36
      rw [List.length_cons, List.length_cons, List.length_cons, List.length_cons,
        bytesToHex_length, hlen]
    · intro c hc
      have h2 : c ∈ bytesToHex tokenBytes := hc
      exact bytesToHex_mem tokenBytes c h2
    · rw [hred]

def c7AR : DeviceAuthRequest := ⟨"dc1", "ABCD-EFGH", "authorized", some 5, 1000⟩

def c7Bytes : List Nat := [0, 1, 2, 3, 4, 5, 6, 7, 8, 9, 10, 11, 12, 13, 14, 15]

/-- Witness for c7_poll_device_token at a concrete expired poll. -/
theorem c7_poll_device_token_witness :
    (c7Bytes.length = 16 ∧ c7AR.expires_at < 2000) ∧
    pollDeviceToken (some "dc1") (some c7AR) 2000 c7Bytes c7Bytes [] =
      (.err "expired_token", []) :=
  ⟨⟨by decide, by decide⟩,
    (c7_poll_device_token "dc1" c7AR 2000 c7Bytes c7Bytes [] (by decide)).1 (by decide)⟩

/- ── C8: probe result callback（web.ts POST /api/probe/receive_result） ── -/

/-- Embedding of db.ts updateProbeEventStatus: result and error are written
only when supplied; sent_at is stamped on status sent, completed_at on status
completed or error. -/
def updateProbeEventStatus (id : String) (status : String) (result : Option String)
    (error : Option String) (now : Nat) (events : List ProbeEventRec) :
    List ProbeEventRec :=
  events.map fun ev =>
    if ev.id == id then
      { ev with
        status := status,
        result := match result with | some r => some r | none => ev.result,
        error := match error with | some er => some er | none => ev.error,
        sent_at := if status == "sent" then some now else ev.sent_at,
        completed_at := if status == "completed" || status == "error" then some now
          else ev.completed_at }
    else ev

inductive ReceiveResp where
  | badRequest
  | notFound
  | ok
deriving DecidableEq, Repr

/-- Embedding of the POST /api/probe/receive_result handler: reject a missing
event_id or an unknown or foreign event; on success mark the event completed
with the supplied data, else mark it error with the message (empty or missing
message becomes Unknown error). -/
def receiveResult (authUserId : Nat) (eventId : Option String) (success : Bool)
    (data : Option String) (error : Option String) (now : Nat)
    (events : List ProbeEventRec) : List ProbeEventRec × ReceiveResp :=
  match eventId with
  | none => (events, .badRequest)
  | some eid =>
    match events.find? (fun ev => ev.id == eid) with
    | none => (events, .notFound)
    | some ev =>
      if ev.user_id == authUserId then
        if success then
          (updateProbeEventStatus eid "completed" data none now events, .ok)
        else
          (updateProbeEventStatus eid "error" none
            (some (match error with
              | none => "Unknown error"
              | some er => if er == "" then "Unknown error" else er)) now events, .ok)
      else (events, .notFound)

def c8Event : ProbeEventRec :=
  ⟨"e1", 5, some 10, "https://twitter.com/a/status/1", "twitter", "pending",
    none, none, none, none⟩

def c8EmptyState : PipeState := ⟨[], 0, [], [], [], []⟩

/-- C8 counterexample: a freshly created pending event (exactly the shape
createProbeEvent inserts) receives a success callback whose body carries no
data field; the endpoint does not validate data, updateProbeEventStatus only
writes result when one is supplied, so the event ends completed with a NULL
result, contradicting the claim that completed events always carry a result
payload. The completed timestamp IS set. -/
theorem c8_counterexample :
    (createProbeEvent "e1" 5 (some 10) "https://twitter.com/a/status/1" "twitter"
      c8EmptyState).probeEvents = [c8Event] ∧
    (receiveResult 5 (some "e1") true none none 100 [c8Event]).1 =
      [{ c8Event with status := "completed", completed_at := some 100 }] ∧
    (∀ ev ∈ (receiveResult 5 (some "e1") true none none 100 [c8Event]).1,
      ev.status = "completed" ∧ ev.result = none ∧ ev.completed_at = some 100) := by
  refine ⟨rfl, rfl, ?_⟩
  intro ev hev
  rw [List.mem_singleton.mp hev]
  exact ⟨rfl, rfl, rfl⟩

/-- C8 amended: through the result-callback path, a successful callback on a
known event of the calling probe user always leaves that event with status
completed and a set completed timestamp; its result payload is non-null
provided the callback carried a data payload (a success body without data
yields a completed event with a null result). -/
theorem c8_completed_event (authUserId : Nat) (eid : String) (data : Option String)
    (error : Option String) (now : Nat) (events : List ProbeEventRec)
    (ev : ProbeEventRec)
    (hfind : events.find? (fun x => x.id == eid) = some ev)
    (huser : ev.user_id = authUserId) :
    ∀ x ∈ (receiveResult authUserId (some eid) true data error now events).1,
      x.id = eid →
      x.status = "completed" ∧ x.completed_at = some now ∧
        (∀ d, data = some d → x.result = some d) := by
  intro x hx hxid
  have hred : receiveResult authUserId (some eid) true data error now events =
      (updateProbeEventStatus eid "completed" data none now events, .ok) := by
    show (match events.find? (fun v => v.id == eid) with
      | none => (events, ReceiveResp.notFound)
      | some ev => _) = _
    rw [hfind]
    show (if ev.user_id == authUserId then _ else (events, ReceiveResp.notFound)) = _
    rw [if_pos (by rw [huser]; exact beq_self_eq_true _)]
    rfl
  rw [hred] at hx
  unfold updateProbeEventStatus at hx
  obtain ⟨y, hy, hyx⟩ := List.mem_map.mp hx
  by_cases h : y.id = eid
  · rw [if_pos (by simpa using h)] at hyx
    rw [← hyx]
    refine ⟨rfl, rfl, ?_⟩
    intro d hd
    rw [hd]
  · rw [if_neg (by simpa using h)] at hyx
    rw [← hyx] at hxid
    exact absurd hxid h

/-- Witness for c8_completed_event: a success callback that does carry data. -/
theorem c8_completed_event_witness :
    (([c8Event].find? (fun x => x.id == "e1") = some c8Event) ∧ c8Event.user_id = 5) ∧
    (∀ x ∈ (receiveResult 5 (some "e1") true (some "payload") none 100 [c8Event]).1,
      x.id = "e1" → x.status = "completed" ∧ x.completed_at = some 100 ∧
        (∀ d, (some "payload" : Option String) = some d → x.result = some d)) :=
  ⟨⟨rfl, rfl⟩,
    c8_completed_event 5 "e1" (some "payload") none 100 [c8Event] c8Event rfl rfl⟩

/- ── C9: resubmitting a url（pipeline.ts processUrl plus upsert） ── -/

/-- Embedding of pipeline.ts processUrl followed by the status reset the
spawned task handler performs: an existing (user, url) row is reused and
reset to pending with the error cleared, otherwise a fresh row is inserted. -/
def submitUrl (userId : Nat) (url : String) (st : PipeState) : PipeState × Nat :=
  match getLinkByUrl userId url st.links with
  | some l =>
    let r := resolveLink ⟨userId, url, some l.id, none⟩ st
    (r.2, r.1)
  | none =>
    let r0 := insertLink userId url st
    let r := resolveLink ⟨userId, url, some r0.2, none⟩ r0.1
    (r.2, r.1)

theorem maxById_map (g : LinkRec → LinkRec) (hg : ∀ l, (g l).id = l.id)
    (l : List LinkRec) : maxById (l.map g) = (maxById l).map g := by
  induction l with
  | nil => rfl
  | cons x xs ih =>
    rw [List.map_cons, maxById, maxById, ih]
    cases hx : maxById xs with
    | none => rfl
    | some m =>
      show (if (g m).id ≤ (g x).id then some (g x) else some (g m)) =
        Option.map g (if m.id ≤ x.id then some x else some m)
      rw [hg, hg]
      by_cases hc : m.id ≤ x.id
      · rw [if_pos hc, if_pos hc]
        rfl
      · rw [if_neg hc, if_neg hc]
        rfl

theorem getLinkByUrl_map (g : LinkRec → LinkRec)
    (hg : ∀ l, (g l).id = l.id ∧ (g l).user_id = l.user_id ∧ (g l).url = l.url)
    (userId : Nat) (url : String) (links : List LinkRec) :
    getLinkByUrl userId url (links.map g) = (getLinkByUrl userId url links).map g := by
  unfold getLinkByUrl
  rw [List.filter_map]
  have hp : ((fun l : LinkRec => l.user_id == userId && l.url == url) ∘ g) =
      (fun l : LinkRec => l.user_id == userId && l.url == url) := by
    funext l
    simp only [Function.comp_apply, (hg l).2.1, (hg l).2.2]
  rw [hp]
  exact maxById_map g (fun l => (hg l).1) _

theorem maxById_append_fresh (xs : List LinkRec) (l : LinkRec)
    (h : ∀ x ∈ xs, x.id < l.id) : maxById (xs ++ [l]) = some l := by
  induction xs with
  | nil => rfl
  | cons x rest ih =>
    rw [List.cons_append, maxById, ih (fun y hy => h y (List.mem_cons_of_mem _ hy))]
    have hx := h x (List.mem_cons_self x rest)
    show (if l.id ≤ x.id then some x else some l) = some l
    rw [if_neg (by omega)]

def c9ErrState : PipeState :=
  (processLinkHandler ⟨42, "https://example.com/a", none, none⟩ (fun _ => false) "ev9"
    ⟨.error "boom", .ok (), .ok (), .ok [], .ok ()⟩ ⟨[], 3, [], [], [], []⟩).1

/-- C9 counterexample: a first submission of the url whose scrape fails with
message boom leaves the link with status error and error_message boom (the
real handler run computes this state). Resubmitting the same url reuses the
same linkId 3 and creates no second row, and resets the status to pending,
but the stored error message is STILL boom: the reset passes error_message as
undefined, which Kysely set() skips, so the claimed clearing never happens. -/
theorem c9_counterexample :
    c9ErrState.links = [⟨3, 42, "https://example.com/a", "error", some "boom"⟩] ∧
    (submitUrl 42 "https://example.com/a" c9ErrState).2 = 3 ∧
    (submitUrl 42 "https://example.com/a" c9ErrState).1.links =
      [⟨3, 42, "https://example.com/a", "pending", some "boom"⟩] := by
  decide

/-- C9 amended: submitting the same url a second time yields the same linkId,
creates no second row, and resets the link to status pending; the stored
error message of every row is left unchanged by the resubmission (Kysely
set() drops the undefined error_message entry of the reset update). The
hypothesis is the serial-id discipline: every stored id is below the next
serial value. -/
theorem c9_resubmission (userId : Nat) (url : String) (st : PipeState)
    (hB : ∀ l ∈ st.links, l.id < st.nextLinkId) :
    (submitUrl userId url (submitUrl userId url st).1).2 = (submitUrl userId url st).2 ∧
    (submitUrl userId url (submitUrl userId url st).1).1.links.length =
      (submitUrl userId url st).1.links.length ∧
    (∃ l ∈ (submitUrl userId url (submitUrl userId url st).1).1.links,
      l.id = (submitUrl userId url st).2 ∧ l.status = "pending") ∧
    (submitUrl userId url (submitUrl userId url st).1).1.links.map
        (fun l => (l.id, l.error_message)) =
      (submitUrl userId url st).1.links.map (fun l => (l.id, l.error_message)) := by
  have hpres : ∀ lid : Nat, ∀ x : LinkRec,
      ((fun y : LinkRec => if y.id == lid then
        { y with status := "pending" } else y) x).id = x.id ∧
      ((fun y : LinkRec => if y.id == lid then
        { y with status := "pending" } else y) x).user_id = x.user_id ∧
      ((fun y : LinkRec => if y.id == lid then
        { y with status := "pending" } else y) x).url = x.url := by
    intro lid x
    by_cases h : x.id == lid <;> simp [h]
  have key : ∃ l0, getLinkByUrl userId url (submitUrl userId url st).1.links = some l0 ∧
      l0.id = (submitUrl userId url st).2 ∧
      l0 ∈ (submitUrl userId url st).1.links := by
    cases hgu : getLinkByUrl userId url st.links with
    | some l =>
      have hs : submitUrl userId url st =
          (updateLink l.id (fun y => { y with status := "pending" })
            st, l.id) := by
        unfold submitUrl
        rw [hgu]
        rfl
      have hlinks : (submitUrl userId url st).1.links =
          st.links.map (fun y : LinkRec => if y.id == l.id then
            { y with status := "pending" } else y) := by
        rw [hs]
        rfl
      refine ⟨(fun y : LinkRec => if y.id == l.id then
          { y with status := "pending" } else y) l, ?_, ?_, ?_⟩
      · rw [hlinks, getLinkByUrl_map _ (hpres l.id) userId url st.links, hgu]
        rfl
      · rw [hs]
        exact (hpres l.id l).1
      · rw [hlinks]
        exact List.mem_map_of_mem _ (getLinkByUrl_mem hgu)
    | none =>
      have hs : submitUrl userId url st =
          (updateLink st.nextLinkId
            (fun y => { y with status := "pending" })
            (insertLink userId url st).1, st.nextLinkId) := by
        unfold submitUrl
        rw [hgu]
        rfl
      have hnew : getLinkByUrl userId url
          (st.links ++ [⟨st.nextLinkId, userId, url, "pending", none⟩]) =
          some ⟨st.nextLinkId, userId, url, "pending", none⟩ := by
        unfold getLinkByUrl
        rw [List.filter_append]
        have hfn : List.filter (fun l : LinkRec => l.user_id == userId && l.url == url)
            [⟨st.nextLinkId, userId, url, "pending", none⟩] =
            [⟨st.nextLinkId, userId, url, "pending", none⟩] := by
          simp
        rw [hfn]
        exact maxById_append_fresh _ _ (fun x hx => hB x (List.mem_of_mem_filter hx))
      have hlinks : (submitUrl userId url st).1.links =
          (st.links ++ [(⟨st.nextLinkId, userId, url, "pending", none⟩ : LinkRec)]).map
            (fun y : LinkRec => if y.id == st.nextLinkId then
              { y with status := "pending" } else y) := by
        rw [hs]
        rfl
      refine ⟨(fun y : LinkRec => if y.id == st.nextLinkId then
          { y with status := "pending" } else y)
            ⟨st.nextLinkId, userId, url, "pending", none⟩, ?_, ?_, ?_⟩
      · rw [hlinks, getLinkByUrl_map _ (hpres st.nextLinkId) userId url _, hnew]
        rfl
      · rw [hs]
        exact (hpres st.nextLinkId ⟨st.nextLinkId, userId, url, "pending", none⟩).1
      · rw [hlinks]
        exact List.mem_map_of_mem _
          (List.mem_append.mpr (Or.inr (List.mem_singleton.mpr rfl)))
  obtain ⟨l0, hfind, hid, hmem⟩ := key
  have hs2 : submitUrl userId url (submitUrl userId url st).1 =
      (updateLink l0.id (fun y => { y with status := "pending" })
        (submitUrl userId url st).1, l0.id) := by
    conv_lhs => rw [submitUrl]
    rw [hfind]
    rfl
  refine ⟨?_, ?_, ?_, ?_⟩
  · rw [hs2]
    exact hid
  · rw [hs2]
    show ((submitUrl userId url st).1.links.map _).length = _
    rw [List.length_map]
  · refine ⟨{ l0 with status := "pending" }, ?_, hid, rfl⟩
    rw [hs2]
    exact mem_updateLink_self (submitUrl userId url st).1 l0.id
      (fun y => { y with status := "pending" }) l0 hmem rfl
  · rw [hs2]
    show ((submitUrl userId url st).1.links.map _).map _ = _
    rw [List.map_map]
    apply List.map_congr_left
    intro x _
    by_cases h : x.id = l0.id <;> simp [h]

def c9State : PipeState :=
  ⟨[⟨0, 7, "https://other.example", "analyzed", some "boom"⟩], 1, [], [], [], []⟩

/-- Witness for c9_resubmission at a concrete state with one unrelated link. -/
theorem c9_resubmission_witness :
    (∀ l ∈ c9State.links, l.id < c9State.nextLinkId) ∧
    (submitUrl 42 "https://example.com/a"
      ((submitUrl 42 "https://example.com/a" c9State).1)).2 =
      (submitUrl 42 "https://example.com/a" c9State).2 :=
  ⟨by decide, (c9_resubmission 42 "https://example.com/a" c9State (by decide)).1⟩
